import Mathlib

/-!
# ZenLedger local ledger store — verification of the specification

Shallow embedding of the storage/service layer of the ZenLedger application
(`src/AddEntryPage.tsx`, services section, lines 497–670) and of the statistics
aggregation (`StatsPage`, lines 1280–1312), together with theorems settling the
spec claims about them.

Modelling conventions:
* `localStorage` is modelled as two slots (one per fixed key); a readable slot
  holds the `JSON.parse` of the stored string.  The store itself only ever
  writes JSON arrays, so a readable slot holds a list of JSON values;
  `Slot.corrupt` models a stored string rejected by `JSON.parse` (a read
  failure), `Slot.absent` a missing key.
* JavaScript numbers are modelled as rationals (`Rat`): every amount arising in
  the claims is exactly representable, and sums/comparisons agree with the
  float computation on them.
* Writes (`localStorage.setItem`) are assumed to succeed except in
  `importData`, which takes two flags modelling its two writes throwing
  (e.g. quota exceeded); elsewhere a failing write only triggers a UI alert
  and is outside the claims under study.
-/

namespace ZenLedger

/-- A JSON value, as produced by `JSON.parse`. -/
inductive Json where
  | null : Json
  | bool : Bool → Json
  | num : Rat → Json
  | str : String → Json
  | arr : List Json → Json
  | obj : List (String × Json) → Json

/-- JavaScript truthiness of a `JSON.parse` result (the `!data` check in
`importData`).  `undefined`/`NaN` cannot result from `JSON.parse`. -/
def Json.truthy : Json → Bool
  | .null => false
  | .bool b => b
  | .num n => decide (n ≠ 0)
  | .str s => decide (s ≠ "")
  | .arr _ => true
  | .obj _ => true

/-- Property access `v.field` on a parsed JSON value: field lookup on an
object, `undefined` (here `none`) on anything else. -/
def Json.getField : Json → String → Option Json
  | .obj fields, k => fields.lookup k
  | _, _ => none

/-- `Array.isArray` applied to a property-access result (`none` is
`undefined`). -/
def isArrayField : Option Json → Bool
  | some (.arr _) => true
  | _ => false

/-- The elements of a property-access result known to be an array. -/
def arrElems : Option Json → List Json
  | some (.arr xs) => xs
  | _ => []

/-- JavaScript `e.id === id` where `id` is a string and `e` an arbitrary
parsed value: strict equality holds only when the `id` field exists and is the
equal string. -/
def Json.hasId (j : Json) (i : String) : Bool :=
  match j.getField "id" with
  | some (.str s) => s == i
  | _ => false

/-- The `id` field of a parsed value when it exists and is a string. -/
def Json.idStr (j : Json) : Option String :=
  match j.getField "id" with
  | some (.str s) => some s
  | _ => none

/-- One `localStorage` slot, as seen through `JSON.parse` on read. -/
inductive Slot where
  | absent : Slot
  | corrupt : Slot
  | stored : List Json → Slot

/-- The persistent state: the two fixed keys `"zenledger_data"` (entries) and
`"zenledger_categories"` (categories). -/
structure Store where
  entriesSlot : Slot
  categoriesSlot : Slot

/-- The fixed 10-color palette (`COLORS`). -/
def COLORS : List String :=
  ["#6366f1", "#ec4899", "#10b981", "#f59e0b", "#3b82f6",
   "#8b5cf6", "#ef4444", "#64748b", "#14b8a6", "#f97316"]

/-- A category record. -/
structure Category where
  id : String
  name : String
  type : String
  color : String
deriving DecidableEq

/-- The 8 built-in default expense categories (`DEFAULT_EXPENSE_CATEGORIES`). -/
def DEFAULT_EXPENSE_CATEGORIES : List Category :=
  [⟨"1", "餐饮", "expense", COLORS.getD 0 ""⟩,
   ⟨"2", "交通", "expense", COLORS.getD 1 ""⟩,
   ⟨"3", "居住", "expense", COLORS.getD 2 ""⟩,
   ⟨"4", "水电", "expense", COLORS.getD 3 ""⟩,
   ⟨"5", "娱乐", "expense", COLORS.getD 4 ""⟩,
   ⟨"6", "医疗", "expense", COLORS.getD 5 ""⟩,
   ⟨"7", "购物", "expense", COLORS.getD 6 ""⟩,
   ⟨"8", "其他", "expense", COLORS.getD 7 ""⟩]

/-- Serialization of a category, as `JSON.stringify` produces it. -/
def categoryToJson (c : Category) : Json :=
  .obj [("id", .str c.id), ("name", .str c.name),
        ("type", .str c.type), ("color", .str c.color)]

/-- The default categories as the JSON array the seeding write stores. -/
def DEFAULTS_JSON : List Json := DEFAULT_EXPENSE_CATEGORIES.map categoryToJson

/-- The type of a ledger entry. -/
inductive EntryType where
  | expense : EntryType
  | income : EntryType
  | note : EntryType
deriving DecidableEq

/-- The string tag an `EntryType` serializes to. -/
def EntryType.toStr : EntryType → String
  | .expense => "expense"
  | .income => "income"
  | .note => "note"

/-- A media attachment record. -/
structure MediaAttachment where
  id : String
  type : String
  data : String
deriving DecidableEq

/-- A ledger entry record.  `date` is the ISO 8601 timestamp string. -/
structure Entry where
  id : String
  type : EntryType
  amount : Rat
  category : String
  tags : List String
  content : String
  date : String
  media : List MediaAttachment
deriving DecidableEq

/-- Serialization of a media attachment. -/
def mediaToJson (m : MediaAttachment) : Json :=
  .obj [("id", .str m.id), ("type", .str m.type), ("data", .str m.data)]

/-- Serialization of an entry, as `JSON.stringify` produces it. -/
def entryToJson (e : Entry) : Json :=
  .obj [("id", .str e.id), ("type", .str e.type.toStr), ("amount", .num e.amount),
        ("category", .str e.category), ("tags", .arr (e.tags.map .str)),
        ("content", .str e.content), ("date", .str e.date),
        ("media", .arr (e.media.map mediaToJson))]

/-- `getEntries`: `JSON.parse` of the entries key; `[]` when the key is absent
(`data` falsy) and `[]` when the read or parse throws (swallowed by the
`catch`). -/
def getEntries (s : Store) : List Json :=
  match s.entriesSlot with
  | .absent => []
  | .corrupt => []
  | .stored xs => xs

/-- `getCategories`: returns the parsed array when the key holds a readable
value; seeds and persists the built-in defaults when the key is absent;
returns the defaults without persisting when the read throws (the `catch`
branch). -/
def getCategories (s : Store) : List Json × Store :=
  match s.categoriesSlot with
  | .stored xs => (xs, s)
  | .absent => (DEFAULTS_JSON, { s with categoriesSlot := .stored DEFAULTS_JSON })
  | .corrupt => (DEFAULTS_JSON, s)

/-- `listEntries()` of the spec is the read operation `getEntries`. -/
def listEntries (s : Store) : List Json := getEntries s

/-- `listCategories()` of the spec is the value read by `getCategories`. -/
def listCategories (s : Store) : List Json := (getCategories s).1

/-- `saveEntry`: upsert by id — overwrite in place when `findIndex` hits,
otherwise prepend — then persist the whole collection.  (`findIdx` returns the
length when nothing matches, mirroring `findIndex` returning `-1`.) -/
def saveEntry (entry : Entry) (s : Store) : Store :=
  let entries := getEntries s
  let existingIndex := entries.findIdx (fun e => e.hasId entry.id)
  let newEntries :=
    if existingIndex < entries.length then
      entries.set existingIndex (entryToJson entry)
    else
      entryToJson entry :: entries
  { s with entriesSlot := .stored newEntries }

/-- `deleteEntry`: early return on a falsy id (the only falsy string is `""`);
otherwise splice out the first match and persist, or do nothing when
`findIndex` misses. -/
def deleteEntry (id : String) (s : Store) : Store :=
  if id = "" then s
  else
    let entries := getEntries s
    let index := entries.findIdx (fun e => e.hasId id)
    if index < entries.length then
      { s with entriesSlot := .stored (entries.eraseIdx index) }
    else s

/-- `deleteCategory`: read (possibly seeding), refuse when at most one
category remains, otherwise persist the list filtered by `c.id !== id`. -/
def deleteCategory (id : String) (s : Store) : Store :=
  let read := getCategories s
  if read.1.length ≤ 1 then read.2
  else
    { read.2 with categoriesSlot := .stored (read.1.filter (fun c => !(c.hasId id))) }

/-- `exportData`: the full-snapshot backup document.  `now` stands for
`new Date().toISOString()`; the returned store reflects the possible seeding
done by `getCategories`. -/
def exportData (now : String) (s : Store) : Json × Store :=
  let entries := getEntries s
  let read := getCategories s
  (.obj [("entries", .arr entries), ("categories", .arr read.1),
         ("exportedAt", .str now), ("appName", .str "ZenLedger"),
         ("version", .num 1)], read.2)

/-- `importData`: the input is the result of `JSON.parse` on the supplied text
(`none` models the parse throwing).  `failE`/`failC` model the two
`localStorage.setItem` calls throwing (e.g. quota exceeded); the thrown
exception is caught and reported as `false`.  On a structural-validation
failure nothing is written. -/
def importData (failE failC : Bool) (input : Option Json) (s : Store) :
    Bool × Store :=
  match input with
  | none => (false, s)
  | some data =>
    if !data.truthy || !(isArrayField (data.getField "entries"))
        || !(isArrayField (data.getField "categories")) then
      (false, s)
    else
      let es := arrElems (data.getField "entries")
      let cs := arrElems (data.getField "categories")
      if failE then (false, s)
      else
        let s1 : Store := { s with entriesSlot := .stored es }
        if failC then (false, s1)
        else (true, { s1 with categoriesSlot := .stored cs })

/-! ## Statistics aggregation (`StatsPage`) -/

/-- The local-calendar year and month of a date (the projection `isSameMonth`
compares). -/
structure YearMonth where
  year : Int
  month : Int
deriving DecidableEq

/-- One group of the aggregation output (`{name, value, color}`). -/
structure StatGroup where
  name : String
  value : Rat
  color : String
deriving DecidableEq

/-- The statistics tab selector (`activeTab`). -/
inductive Tab where
  | expense : Tab
  | income : Tab
deriving DecidableEq

/-- The entry type a tab selects. -/
def Tab.toEntryType : Tab → EntryType
  | .expense => .expense
  | .income => .income

/-- `filteredEntries`: keep the entries whose parsed date falls in the target
month and whose type matches the tab.  The date-fns composition
`isSameMonth(parseISO(e.date), currentMonth)` is modelled through `localYM`,
the map from an ISO date string to the local-calendar year and month of the
parsed date; `isSameMonth` holds exactly when the two projections agree. -/
def filteredEntries (localYM : String → YearMonth) (entries : List Entry)
    (currentMonth : YearMonth) (tab : Tab) : List Entry :=
  entries.filter fun e =>
    decide (localYM e.date = currentMonth) && decide (e.type = tab.toEntryType)

/-- One step of the grouping pass:
`map.set(e.category, (map.get(e.category) || 0) + e.amount)`.  A JavaScript
`Map` preserves insertion order and updates values in place. -/
def mapSet (m : List (String × Rat)) (e : Entry) : List (String × Rat) :=
  if m.any (fun p => p.1 == e.category) then
    m.map (fun p => if p.1 == e.category then (p.1, p.2 + e.amount) else p)
  else m ++ [(e.category, e.amount)]

/-- The grouping pass: `filteredEntries.forEach(e => map.set(...))`. -/
def groupFold (fs : List Entry) : List (String × Rat) := fs.foldl mapSet []

/-- The `.map(([name, value], index) => ({name, value, color: COLORS[index %
COLORS.length]}))` step, assigning the cycled palette color by position. -/
def withColors : Nat → List (String × Rat) → List StatGroup
  | _, [] => []
  | i, (n, v) :: rest =>
    ⟨n, v, COLORS.getD (i % COLORS.length) ""⟩ :: withColors (i + 1) rest

/-- One insertion step of the stable descending sort. -/
def insertDesc (x : StatGroup) : List StatGroup → List StatGroup
  | [] => [x]
  | y :: ys => if y.value ≤ x.value then x :: y :: ys else y :: insertDesc x ys

/-- `.sort((a, b) => b.value - a.value)`: `Array.prototype.sort` is stable
(ECMA-262), so the result is the stable descending-by-value sort. -/
def sortByValueDesc : List StatGroup → List StatGroup
  | [] => []
  | x :: xs => insertDesc x (sortByValueDesc xs)

/-- `dataByCategory`: group the month-and-type-filtered entries by category,
color by pre-sort index, then sort descending by summed value. -/
def dataByCategory (localYM : String → YearMonth) (entries : List Entry)
    (currentMonth : YearMonth) (tab : Tab) : List StatGroup :=
  sortByValueDesc
    (withColors 0 (groupFold (filteredEntries localYM entries currentMonth tab)))

/-! ### Spec-side descriptions for the aggregation claim -/

/-- The values of a list in order of first occurrence (the insertion order of
a JavaScript `Map` built over the list). -/
def firstOccur (l : List String) : List String :=
  l.foldl (fun acc x => if x ∈ acc then acc else acc ++ [x]) []

/-- The sum of the amounts of the entries of a given category. -/
def sumAmounts (fs : List Entry) (c : String) : Rat :=
  ((fs.filter fun e => decide (e.category = c)).map Entry.amount).sum

/-- The groups as §4.4 of the spec describes them: categories in order of
first occurrence in the filtered list, each with the summed amount and the
cycled palette color of its first-occurrence position. -/
def specGroups (fs : List Entry) : List StatGroup :=
  withColors 0 ((firstOccur (fs.map Entry.category)).map fun c => (c, sumAmounts fs c))

/-! ## Lemmas about the grouping pass -/

theorem mem_foldlDedup (l : List String) (acc : List String) (x : String) :
    x ∈ l.foldl (fun acc y => if y ∈ acc then acc else acc ++ [y]) acc ↔
      x ∈ acc ∨ x ∈ l := by
  induction l generalizing acc with
  | nil => simp
  | cons a l ih =>
    simp only [List.foldl_cons]
    rw [ih]
    by_cases h : a ∈ acc
    · simp only [if_pos h, List.mem_cons]
      constructor
      · rintro (hx | hx)
        · exact Or.inl hx
        · exact Or.inr (Or.inr hx)
      · rintro (hx | hx | hx)
        · exact Or.inl hx
        · exact Or.inl (hx ▸ h)
        · exact Or.inr hx
    · simp only [if_neg h, List.mem_append, List.mem_singleton, List.mem_cons]
      tauto

theorem mem_firstOccur {x : String} {l : List String} :
    x ∈ firstOccur l ↔ x ∈ l := by
  unfold firstOccur
  rw [mem_foldlDedup]
  simp

theorem firstOccur_snoc (l : List String) (a : String) :
    firstOccur (l ++ [a]) =
      if a ∈ l then firstOccur l else firstOccur l ++ [a] := by
  have h1 : firstOccur (l ++ [a]) =
      if a ∈ firstOccur l then firstOccur l else firstOccur l ++ [a] := by
    unfold firstOccur
    rw [List.foldl_append]
    simp only [List.foldl_cons, List.foldl_nil]
  rw [h1]
  by_cases h : a ∈ l
  · rw [if_pos (mem_firstOccur.2 h), if_pos h]
  · rw [if_neg (fun hh => h (mem_firstOccur.1 hh)), if_neg h]

theorem sumAmounts_snoc (fs : List Entry) (e : Entry) (c : String) :
    sumAmounts (fs ++ [e]) c =
      sumAmounts fs c + (if e.category = c then e.amount else 0) := by
  unfold sumAmounts
  rw [List.filter_append]
  by_cases h : e.category = c <;>
    simp [List.filter_cons, h]

theorem sumAmounts_eq_zero {fs : List Entry} {c : String}
    (h : c ∉ fs.map Entry.category) : sumAmounts fs c = 0 := by
  unfold sumAmounts
  have hnil : fs.filter (fun e => decide (e.category = c)) = [] := by
    rw [List.filter_eq_nil_iff]
    intro e he hdec
    exact h (List.mem_map.2 ⟨e, he, by simpa using hdec⟩)
  simp [hnil]

theorem groupFold_snoc (fs : List Entry) (e : Entry) :
    groupFold (fs ++ [e]) = mapSet (groupFold fs) e := by
  unfold groupFold
  rw [List.foldl_append]
  rfl

/-- The grouping pass produces exactly the categories in first-occurrence
order, each paired with its summed amount. -/
theorem groupFold_eq (fs : List Entry) :
    groupFold fs =
      (firstOccur (fs.map Entry.category)).map (fun c => (c, sumAmounts fs c)) := by
  induction fs using List.reverseRecOn with
  | nil => rfl
  | append_singleton fs e ih =>
    rw [groupFold_snoc, ih, List.map_append, List.map_singleton, firstOccur_snoc]
    unfold mapSet
    by_cases hmem : e.category ∈ fs.map Entry.category
    · have hany :
          (((firstOccur (fs.map Entry.category)).map
            (fun c => (c, sumAmounts fs c))).any
              (fun p => p.1 == e.category)) = true := by
        rw [List.any_eq_true]
        exact ⟨(e.category, sumAmounts fs e.category),
          List.mem_map.2 ⟨e.category, mem_firstOccur.2 hmem, rfl⟩, by simp⟩
      rw [if_pos hany, if_pos hmem, List.map_map]
      apply List.map_congr_left
      intro c _
      by_cases hc : c = e.category
      · subst hc
        simp [Function.comp, sumAmounts_snoc]
      · have hc2 : e.category ≠ c := fun hh => hc hh.symm
        simp [Function.comp, hc, hc2, sumAmounts_snoc]
    · have hany :
          (((firstOccur (fs.map Entry.category)).map
            (fun c => (c, sumAmounts fs c))).any
              (fun p => p.1 == e.category)) = false := by
        rw [List.any_eq_false]
        intro p hp
        obtain ⟨c, hc, rfl⟩ := List.mem_map.1 hp
        simp only [beq_iff_eq]
        exact fun hh => hmem (hh ▸ mem_firstOccur.1 hc)
      rw [if_neg (by simp [hany]), if_neg hmem, List.map_append,
        List.map_singleton]
      congr 1
      · apply List.map_congr_left
        intro c hc
        have hc2 : e.category ≠ c :=
          fun hh => hmem (hh ▸ mem_firstOccur.1 hc)
        simp [sumAmounts_snoc, hc2]
      · rw [sumAmounts_snoc, sumAmounts_eq_zero hmem, if_pos rfl, zero_add]

/-! ## Lemmas about the stable descending sort -/

theorem insertDesc_perm (x : StatGroup) (l : List StatGroup) :
    List.Perm (insertDesc x l) (x :: l) := by
  induction l with
  | nil => exact List.Perm.refl _
  | cons y ys ih =>
    unfold insertDesc
    by_cases h : y.value ≤ x.value
    · rw [if_pos h]
    · rw [if_neg h]
      exact (ih.cons y).trans (List.Perm.swap x y ys)

theorem sortByValueDesc_perm (l : List StatGroup) :
    List.Perm (sortByValueDesc l) l := by
  induction l with
  | nil => exact List.Perm.refl _
  | cons x xs ih =>
    unfold sortByValueDesc
    exact (insertDesc_perm x (sortByValueDesc xs)).trans (ih.cons x)

theorem sorted_insertDesc {x : StatGroup} {l : List StatGroup}
    (h : l.Sorted (fun a b => b.value ≤ a.value)) :
    (insertDesc x l).Sorted (fun a b => b.value ≤ a.value) := by
  induction l with
  | nil => simp [insertDesc]
  | cons y ys ih =>
    rw [List.sorted_cons] at h
    obtain ⟨hy, hys⟩ := h
    unfold insertDesc
    by_cases hxy : y.value ≤ x.value
    · rw [if_pos hxy, List.sorted_cons]
      refine ⟨?_, List.sorted_cons.2 ⟨hy, hys⟩⟩
      intro b hb
      rcases List.mem_cons.1 hb with hb | hb
      · exact hb ▸ hxy
      · exact le_trans (hy b hb) hxy
    · rw [if_neg hxy, List.sorted_cons]
      refine ⟨?_, ih hys⟩
      intro b hb
      rcases List.mem_cons.1 ((insertDesc_perm x ys).mem_iff.1 hb) with hb | hb
      · exact hb ▸ le_of_lt (not_le.1 hxy)
      · exact hy b hb

theorem sorted_sortByValueDesc (l : List StatGroup) :
    (sortByValueDesc l).Sorted (fun a b => b.value ≤ a.value) := by
  induction l with
  | nil => simp [sortByValueDesc]
  | cons x xs ih =>
    exact sorted_insertDesc ih

theorem filter_insertDesc (v : Rat) (x : StatGroup) (l : List StatGroup) :
    (insertDesc x l).filter (fun g => decide (g.value = v)) =
      if x.value = v then x :: l.filter (fun g => decide (g.value = v))
      else l.filter (fun g => decide (g.value = v)) := by
  induction l with
  | nil => by_cases h : x.value = v <;> simp [insertDesc, h]
  | cons y ys ih =>
    unfold insertDesc
    by_cases hxy : y.value ≤ x.value
    · rw [if_pos hxy]
      by_cases hx : x.value = v <;> simp [List.filter_cons, hx]
    · rw [if_neg hxy]
      by_cases hy : y.value = v
      · by_cases hx : x.value = v
        · exact absurd (le_of_eq (hy.trans hx.symm)) hxy
        · simp [List.filter_cons, hy, hx, ih]
      · simp [List.filter_cons, hy, ih]

theorem filter_sortByValueDesc (v : Rat) (l : List StatGroup) :
    (sortByValueDesc l).filter (fun g => decide (g.value = v)) =
      l.filter (fun g => decide (g.value = v)) := by
  induction l with
  | nil => rfl
  | cons x xs ih =>
    unfold sortByValueDesc
    rw [filter_insertDesc, ih, List.filter_cons]
    by_cases hx : x.value = v <;> simp [hx]

/-! ## Claim theorems -/

/-- C1: the statistics aggregation groups the month-and-type-filtered entries
by category with each group's value the sum of that category's amounts,
assigns colors by cycling the 10-color palette in first-occurrence order, and
returns the groups in descending order of summed amount, ties keeping
first-occurrence order: the output is a permutation of the first-occurrence
groups, it is sorted descending by value, and restricted to any fixed value it
coincides with the first-occurrence groups of that value (stability). -/
theorem dataByCategory_spec (localYM : String → YearMonth) (entries : List Entry)
    (currentMonth : YearMonth) (tab : Tab) :
    List.Perm (dataByCategory localYM entries currentMonth tab)
        (specGroups (filteredEntries localYM entries currentMonth tab))
    ∧ (dataByCategory localYM entries currentMonth tab).Sorted
        (fun a b => b.value ≤ a.value)
    ∧ ∀ v : Rat,
        (dataByCategory localYM entries currentMonth tab).filter
            (fun g => decide (g.value = v)) =
          (specGroups (filteredEntries localYM entries currentMonth tab)).filter
            (fun g => decide (g.value = v)) := by
  have key : withColors 0 (groupFold (filteredEntries localYM entries currentMonth tab)) =
      specGroups (filteredEntries localYM entries currentMonth tab) := by
    unfold specGroups
    rw [groupFold_eq]
  unfold dataByCategory
  rw [key]
  exact ⟨sortByValueDesc_perm _, sorted_sortByValueDesc _,
    fun v => filter_sortByValueDesc v _⟩

/-- C2: an entry is in the filtered set iff its date has the target's
local-calendar year and month and its type equals the selector; in particular
an entry dated `2024-04-30` (whose local year-month is April 2024) is excluded
when aggregating for May 2024. -/
theorem filteredEntries_spec (localYM : String → YearMonth) (entries : List Entry)
    (currentMonth : YearMonth) (tab : Tab) (e : Entry) :
    (e ∈ filteredEntries localYM entries currentMonth tab ↔
      e ∈ entries ∧ localYM e.date = currentMonth ∧ e.type = tab.toEntryType)
    ∧ (e.date = "2024-04-30" → localYM "2024-04-30" = ⟨2024, 4⟩ →
        e ∉ filteredEntries localYM entries ⟨2024, 5⟩ tab) := by
  have hmem : ∀ cm : YearMonth, e ∈ filteredEntries localYM entries cm tab ↔
      e ∈ entries ∧ localYM e.date = cm ∧ e.type = tab.toEntryType := by
    intro cm
    unfold filteredEntries
    rw [List.mem_filter]
    simp
  refine ⟨hmem currentMonth, ?_⟩
  intro hdate hym hin
  have h2 := ((hmem ⟨2024, 5⟩).1 hin).2.1
  rw [hdate, hym] at h2
  exact absurd (congrArg YearMonth.month h2) (by decide)

/-- Concrete instance for C2: an April entry is excluded from the May 2024
aggregation. -/
theorem filteredEntries_spec_witness :
    (⟨"w", .expense, 30, "food", [], "", "2024-04-30", []⟩ : Entry) ∉
      filteredEntries (fun _ => ⟨2024, 4⟩)
        [⟨"w", .expense, 30, "food", [], "", "2024-04-30", []⟩] ⟨2024, 5⟩ .expense :=
  (filteredEntries_spec (fun _ => ⟨2024, 4⟩)
    [⟨"w", .expense, 30, "food", [], "", "2024-04-30", []⟩] ⟨2024, 5⟩ .expense
    ⟨"w", .expense, 30, "food", [], "", "2024-04-30", []⟩).2 rfl rfl

/-- C3: importing the string produced by export succeeds and leaves both
collections exactly as they were before the import call (the state after
export, which may only have seeded the category defaults). -/
theorem importData_exportData_roundtrip (s : Store) (now : String) :
    (importData false false (some (exportData now s).1) (exportData now s).2).1 = true
    ∧ listEntries
        (importData false false (some (exportData now s).1) (exportData now s).2).2 =
      listEntries (exportData now s).2
    ∧ listCategories
        (importData false false (some (exportData now s).1) (exportData now s).2).2 =
      listCategories (exportData now s).2 := by
  obtain ⟨es, cs⟩ := s
  cases es <;> cases cs <;> exact ⟨rfl, rfl, rfl⟩

/-- The structural condition of the import claim: the parsed value is an
object whose `entries` and `categories` fields are both arrays. -/
def isObjWithArrayFields : Json → Bool
  | .obj fields =>
      isArrayField (fields.lookup "entries") && isArrayField (fields.lookup "categories")
  | _ => false

/-- C4: on an input that does not parse as JSON (`none`) or parses to a value
that is not an object whose `entries` and `categories` fields are both arrays,
`importData` returns `false` and leaves the stored state untouched, whatever
the write environment. -/
theorem importData_rejects_invalid (failE failC : Bool) (input : Option Json)
    (s : Store) (h : ∀ j, input = some j → isObjWithArrayFields j = false) :
    importData failE failC input s = (false, s) := by
  cases input with
  | none => rfl
  | some data =>
    have hd := h data rfl
    have hc : (!data.truthy || !(isArrayField (data.getField "entries"))
        || !(isArrayField (data.getField "categories"))) = true := by
      cases data with
      | obj fields =>
        unfold isObjWithArrayFields at hd
        rcases Bool.and_eq_false_iff.mp hd with hA | hB
        · simp [Json.truthy, Json.getField, hA]
        · simp [Json.truthy, Json.getField, hB]
      | null => rfl
      | bool b => cases b <;> rfl
      | num n => simp [Json.truthy, Json.getField, isArrayField]
      | str t => simp [Json.truthy, Json.getField, isArrayField]
      | arr xs => rfl
    simp only [importData]
    rw [if_pos hc]

/-- The '\x7b"foo":1\x7d' example of the claim, after `JSON.parse`. -/
def c4Payload : Json := .obj [("foo", .num 1)]

/-- Concrete instance for C4: importing '\x7b"foo":1\x7d' fails and changes
nothing. -/
theorem importData_rejects_invalid_witness :
    importData false false (some c4Payload) ⟨.stored [], .stored DEFAULTS_JSON⟩ =
      (false, ⟨.stored [], .stored DEFAULTS_JSON⟩) :=
  importData_rejects_invalid false false (some c4Payload)
    ⟨.stored [], .stored DEFAULTS_JSON⟩ (by intro j hj; cases hj; rfl)

/-- A state holding an empty entries collection and the default categories. -/
def c5Store : Store := ⟨.stored [], .stored DEFAULTS_JSON⟩

/-- A structurally valid backup payload. -/
def c5Payload : Json := .obj [("entries", .arr [.num 1]), ("categories", .arr [])]

/-- C5 (code bug): when the second write (categories) throws after the first
write (entries) succeeded, the failing import leaves the entries collection
replaced by the imported array while the categories collection keeps its old
value — one collection updated and the other not. -/
theorem importData_partial_failure :
    (importData false true (some c5Payload) c5Store).1 = false
    ∧ listEntries (importData false true (some c5Payload) c5Store).2 = [.num 1]
    ∧ listEntries c5Store = []
    ∧ listCategories (importData false true (some c5Payload) c5Store).2 =
        listCategories c5Store
    ∧ listCategories c5Store ≠ [] := by
  refine ⟨rfl, rfl, rfl, rfl, ?_⟩
  simp [listCategories, getCategories, c5Store, DEFAULTS_JSON,
    DEFAULT_EXPENSE_CATEGORIES]

/-- A structurally valid payload whose `categories` field is the empty
array. -/
def c10Payload : Json := .obj [("entries", .arr []), ("categories", .arr [])]

/-- C10: a structurally valid payload with an empty `categories` array is
accepted by `importData`, and afterwards `listCategories()` is empty — import
does not enforce the at-least-one-category floor. -/
theorem importData_empty_categories (s : Store) :
    isObjWithArrayFields c10Payload = true
    ∧ (importData false false (some c10Payload) s).1 = true
    ∧ listCategories (importData false false (some c10Payload) s).2 = [] := by
  obtain ⟨es, cs⟩ := s
  exact ⟨rfl, rfl, rfl⟩

/-- C6: when no stored entry has the id, `saveEntry` prepends the serialized
entry; when some stored entry has the id, it overwrites the entry at its
position in place and the number of entries is unchanged. -/
theorem saveEntry_spec (e : Entry) (s : Store) :
    ((∀ j ∈ getEntries s, j.hasId e.id = false) →
      getEntries (saveEntry e s) = entryToJson e :: getEntries s)
    ∧ ((∃ j ∈ getEntries s, j.hasId e.id = true) →
      getEntries (saveEntry e s) =
        (getEntries s).set ((getEntries s).findIdx (fun j => j.hasId e.id))
          (entryToJson e)
      ∧ (getEntries (saveEntry e s)).length = (getEntries s).length) := by
  constructor
  · intro h
    have hidx : (getEntries s).findIdx (fun j => j.hasId e.id) =
        (getEntries s).length :=
      List.findIdx_eq_length.2 h
    simp only [saveEntry, hidx, lt_self_iff_false, if_false]
    rfl
  · intro h
    have hidx : (getEntries s).findIdx (fun j => j.hasId e.id) <
        (getEntries s).length :=
      List.findIdx_lt_length_of_exists h
    constructor
    · simp only [saveEntry, if_pos hidx]
      rfl
    · simp only [saveEntry, if_pos hidx]
      show ((getEntries s).set ((getEntries s).findIdx (fun j => j.hasId e.id))
        (entryToJson e)).length = (getEntries s).length
      exact List.length_set _ _ _

/-- A fresh entry used to instantiate the save claim. -/
def w6Entry : Entry := ⟨"a1", .expense, 30, "food", [], "lunch", "2024-05-01", []⟩

/-- Concrete instance for C6: saving into an empty collection prepends. -/
theorem saveEntry_spec_witness :
    getEntries (saveEntry w6Entry ⟨.stored [], .absent⟩) =
      entryToJson w6Entry :: getEntries ⟨.stored [], .absent⟩ :=
  (saveEntry_spec w6Entry ⟨.stored [], .absent⟩).1
    (by intro j hj; simp [getEntries] at hj)

/-- A state whose entries collection holds one entry whose id is the empty
string (such an entry is storable through `importData`, which does no
per-field validation). -/
def c7Store : Store := ⟨.stored [.obj [("id", .str "")]], .absent⟩

/-- C7 is false as stated: the id `""` is present in the stored collection,
yet `deleteEntry ""` returns early on the falsy id and removes nothing — the
entry with the given id is still present afterwards. -/
theorem deleteEntry_empty_id_counterexample :
    (∃ j ∈ getEntries c7Store, j.hasId "" = true)
    ∧ deleteEntry "" c7Store = c7Store
    ∧ (getEntries (deleteEntry "" c7Store)).any (fun j => j.hasId "") = true := by
  exact ⟨⟨.obj [("id", .str "")], List.mem_singleton.2 rfl, rfl⟩, rfl, rfl⟩

/-- C7 (amended to non-empty ids): for a non-empty id, `deleteEntry` leaves
the store unchanged when no stored entry has the id, and removes exactly the
first entry bearing the id (the only one when ids are unique) when one is
present, all other entries keeping their previous order. -/
theorem deleteEntry_spec (id : String) (s : Store) (hid : id ≠ "") :
    ((∀ j ∈ getEntries s, j.hasId id = false) → deleteEntry id s = s)
    ∧ ((∃ j ∈ getEntries s, j.hasId id = true) →
      getEntries (deleteEntry id s) =
        (getEntries s).eraseIdx ((getEntries s).findIdx (fun j => j.hasId id))) := by
  constructor
  · intro h
    have hidx : (getEntries s).findIdx (fun j => j.hasId id) =
        (getEntries s).length :=
      List.findIdx_eq_length.2 h
    simp only [deleteEntry, if_neg hid, hidx, lt_self_iff_false, if_false]
  · intro h
    have hidx : (getEntries s).findIdx (fun j => j.hasId id) <
        (getEntries s).length :=
      List.findIdx_lt_length_of_exists h
    simp only [deleteEntry, if_neg hid, if_pos hidx]
    rfl

/-- A stored entry with id "b". -/
def w7Json : Json := .obj [("id", .str "b")]

/-- Concrete instance for C7 (amended): deleting a present non-empty id
removes the entry at the found position. -/
theorem deleteEntry_spec_witness :
    getEntries (deleteEntry "b" ⟨.stored [w7Json], .absent⟩) =
      (getEntries ⟨.stored [w7Json], .absent⟩).eraseIdx
        ((getEntries ⟨.stored [w7Json], .absent⟩).findIdx (fun j => j.hasId "b")) :=
  (deleteEntry_spec "b" ⟨.stored [w7Json], .absent⟩ (by decide)).2
    ⟨w7Json, List.mem_singleton.2 rfl, rfl⟩

/-! ## The category floor invariant -/

/-- The string ids present in a stored category array. -/
def idsOf (xs : List Json) : List String := xs.filterMap Json.idStr

theorem hasId_iff_idStr {j : Json} {i : String} :
    j.hasId i = true ↔ j.idStr = some i := by
  unfold Json.hasId Json.idStr
  cases hf : j.getField "id" with
  | none => simp
  | some v => cases v <;> simp

/-- With pairwise-distinct ids, at most one stored category matches a given
id. -/
theorem count_matching_le_one (xs : List Json) (i : String)
    (h : (idsOf xs).Nodup) : (xs.filter (fun c => c.hasId i)).length ≤ 1 := by
  induction xs with
  | nil => simp
  | cons j rest ih =>
    rw [List.filter_cons]
    cases hj : j.hasId i with
    | false =>
      simp only [Bool.false_eq_true, if_false]
      apply ih
      unfold idsOf at h ⊢
      rw [List.filterMap_cons] at h
      cases hid : j.idStr with
      | none => rw [hid] at h; exact h
      | some v => rw [hid] at h; exact h.of_cons
    | true =>
      have hjid : j.idStr = some i := hasId_iff_idStr.1 hj
      unfold idsOf at h
      rw [List.filterMap_cons, hjid] at h
      have hnotin : i ∉ rest.filterMap Json.idStr := (List.nodup_cons.1 h).1
      have hrest : rest.filter (fun c => c.hasId i) = [] := by
        rw [List.filter_eq_nil_iff]
        intro a ha hai
        exact hnotin (List.mem_filterMap.2 ⟨a, ha, hasId_iff_idStr.1 hai⟩)
      simp [hrest]

/-- The invariant the deletion sequence maintains: the categories key holds a
readable array of at least one element with pairwise-distinct ids. -/
def CatInv (s : Store) : Prop :=
  match s.categoriesSlot with
  | Slot.stored xs => 1 ≤ xs.length ∧ (idsOf xs).Nodup
  | _ => False

theorem catInv_listCategories {s : Store} (h : CatInv s) :
    1 ≤ (listCategories s).length := by
  obtain ⟨es, cs⟩ := s
  cases cs with
  | absent => exact h.elim
  | corrupt => exact h.elim
  | stored xs =>
    have h2 : 1 ≤ xs.length ∧ (idsOf xs).Nodup := h
    exact h2.1

theorem catInv_deleteCategory (i : String) (s : Store) (h : CatInv s) :
    CatInv (deleteCategory i s) := by
  obtain ⟨es, cs⟩ := s
  cases cs with
  | absent => exact h.elim
  | corrupt => exact h.elim
  | stored xs =>
    have h2 : 1 ≤ xs.length ∧ (idsOf xs).Nodup := h
    by_cases hle : xs.length ≤ 1
    · have heq : deleteCategory i ⟨es, Slot.stored xs⟩ = ⟨es, Slot.stored xs⟩ := by
        simp [deleteCategory, getCategories, hle]
      rw [heq]
      exact h
    · have heq : deleteCategory i ⟨es, Slot.stored xs⟩ =
          ⟨es, Slot.stored (xs.filter (fun c => !(c.hasId i)))⟩ := by
        simp [deleteCategory, getCategories, hle]
      rw [heq]
      show 1 ≤ (xs.filter (fun c => !(c.hasId i))).length ∧
        (idsOf (xs.filter (fun c => !(c.hasId i)))).Nodup
      constructor
      · have hsum : xs.length = (xs.filter (fun c => c.hasId i)).length +
            (xs.filter (fun a => !(a.hasId i))).length :=
          List.length_eq_length_filter_add _
        have hm := count_matching_le_one xs i h2.2
        omega
      · exact List.Nodup.sublist
          (List.Sublist.filterMap _ (List.filter_sublist xs)) h2.2

/-- C8: starting from first access on an absent categories key (which seeds
the 8 built-in defaults), every sequence of `deleteCategory` calls keeps at
least one category; moreover deletion is a no-op whenever exactly one
category is held, and otherwise replaces the collection with the id-filtered
one (removing the category bearing the given id). -/
theorem deleteCategory_floor (eslot : Slot) (ids : List String) :
    1 ≤ (listCategories (ids.foldl (fun s i => deleteCategory i s)
        (getCategories ⟨eslot, Slot.absent⟩).2)).length
    ∧ (∀ (s : Store) (i : String), (listCategories s).length = 1 →
        deleteCategory i s = s)
    ∧ (∀ (s : Store) (i : String), 2 ≤ (listCategories s).length →
        listCategories (deleteCategory i s) =
          (listCategories s).filter (fun c => !(c.hasId i))) := by
  refine ⟨?_, ?_, ?_⟩
  · have inv : ∀ (l : List String) (s : Store), CatInv s →
        CatInv (l.foldl (fun s i => deleteCategory i s) s) := by
      intro l
      induction l with
      | nil => exact fun s h => h
      | cons i rest ih =>
        intro s h
        rw [List.foldl_cons]
        exact ih _ (catInv_deleteCategory i s h)
    have hbase : CatInv (getCategories ⟨eslot, Slot.absent⟩).2 := by
      show 1 ≤ DEFAULTS_JSON.length ∧ (idsOf DEFAULTS_JSON).Nodup
      exact ⟨by decide, by decide⟩
    exact catInv_listCategories (inv ids _ hbase)
  · intro s i h
    obtain ⟨es, cs⟩ := s
    cases cs with
    | absent =>
      rw [show listCategories ⟨es, Slot.absent⟩ = DEFAULTS_JSON from rfl] at h
      exact absurd h (by decide)
    | corrupt =>
      rw [show listCategories ⟨es, Slot.corrupt⟩ = DEFAULTS_JSON from rfl] at h
      exact absurd h (by decide)
    | stored xs =>
      rw [show listCategories ⟨es, Slot.stored xs⟩ = xs from rfl] at h
      simp [deleteCategory, getCategories, h]
  · intro s i h
    obtain ⟨es, cs⟩ := s
    cases cs with
    | absent => rfl
    | corrupt => rfl
    | stored xs =>
      rw [show listCategories ⟨es, Slot.stored xs⟩ = xs from rfl] at h
      have heq : deleteCategory i ⟨es, Slot.stored xs⟩ =
          ⟨es, Slot.stored (xs.filter (fun c => !(c.hasId i)))⟩ := by
        simp [deleteCategory, getCategories]
        omega
      rw [heq]
      rfl

/-- Concrete instance for C8: deleting the last remaining category is
refused. -/
theorem deleteCategory_floor_witness :
    deleteCategory "1" ⟨Slot.absent,
        Slot.stored [categoryToJson ⟨"1", "x", "expense", "#6366f1"⟩]⟩ =
      ⟨Slot.absent, Slot.stored [categoryToJson ⟨"1", "x", "expense", "#6366f1"⟩]⟩ :=
  (deleteCategory_floor Slot.absent []).2.1
    ⟨Slot.absent, Slot.stored [categoryToJson ⟨"1", "x", "expense", "#6366f1"⟩]⟩
    "1" rfl

/-- A state whose two keys both hold corrupt (unparsable) strings. -/
def c9Store : Store := ⟨.corrupt, .corrupt⟩

/-- C9 is false as stated: on a corrupt categories key the read is NOT
treated as an empty collection — `getCategories` yields the 8 built-in
defaults, a non-empty sequence. -/
theorem read_failure_counterexample :
    getEntries c9Store = [] ∧ listCategories c9Store ≠ [] := by
  refine ⟨rfl, ?_⟩
  simp [listCategories, getCategories, c9Store, DEFAULTS_JSON,
    DEFAULT_EXPENSE_CATEGORIES]

/-- C9 (amended): a read failure is swallowed, never surfaced: `getEntries`
yields the empty sequence on an absent or corrupt entries key, while
`getCategories` yields the built-in default categories on a corrupt
categories key (without touching storage) and on an absent one (seeding
them). -/
theorem read_failure_spec (s : Store) :
    (s.entriesSlot = Slot.absent ∨ s.entriesSlot = Slot.corrupt →
      getEntries s = [])
    ∧ (s.categoriesSlot = Slot.corrupt →
      listCategories s = DEFAULTS_JSON ∧ (getCategories s).2 = s)
    ∧ (s.categoriesSlot = Slot.absent → listCategories s = DEFAULTS_JSON) := by
  obtain ⟨es, cs⟩ := s
  refine ⟨?_, ?_, ?_⟩
  · rintro (h | h) <;> (cases h; rfl)
  · intro h
    cases h
    exact ⟨rfl, rfl⟩
  · intro h
    cases h
    rfl

/-- Concrete instance for C9 (amended): both reads on a fully corrupt store
succeed, entries empty and categories the defaults. -/
theorem read_failure_spec_witness :
    getEntries ⟨Slot.corrupt, Slot.corrupt⟩ = []
    ∧ listCategories ⟨Slot.corrupt, Slot.corrupt⟩ = DEFAULTS_JSON :=
  ⟨(read_failure_spec ⟨Slot.corrupt, Slot.corrupt⟩).1 (Or.inr rfl),
   ((read_failure_spec ⟨Slot.corrupt, Slot.corrupt⟩).2.1 rfl).1⟩

end ZenLedger
